import Mathlib

/-!
Verification development for the monthly-goal-wizard repository.

The TypeScript sources are shallowly embedded: JS numbers that the program
treats as reals are modelled as rationals (ℚ), integer-valued fields as
Int, strings as Lean String (a list of characters).  Each definition
mirrors one function of the source (src/lib/history.ts, src/lib/storage.ts
and the submission module), keeping the source's names.
-/

namespace MGW

/-- Model of the JavaScript String.prototype.trim whitespace test. -/
def isJsWs (c : Char) : Bool := c.isWhitespace

/-- Model of JavaScript String.prototype.trim: drop leading and trailing
whitespace characters. -/
def trimStr (s : String) : String :=
  ⟨((s.data.dropWhile isJsWs).reverse.dropWhile isJsWs).reverse⟩

/-- Variability labels, from src/types.ts. -/
inductive Variability where
  | Consistent
  | Mixed
  | Volatile
deriving DecidableEq, Repr

/-- HistoryRow, from src/types.ts. -/
structure HistoryRow where
  region : String
  chapter : String
  metric_key : String
  year : Int
  month : Int
  value : ℚ
deriving DecidableEq, Repr

/-- MetricStats, from src/types.ts. -/
structure MetricStats where
  countYears : Nat
  avg : ℚ
  min : ℚ
  max : ℚ
  variability : Variability
  hasHistory : Bool
deriving DecidableEq, Repr

/-- The query record taken by computeMetricStats (src/lib/history.ts). -/
structure StatsQuery where
  region : String
  chapter : String
  metricKey : String
  month : Int
  targetYear : Int
deriving DecidableEq, Repr

/-- Model of values.reduce((sum, v) => sum + v, 0). -/
def listSum (l : List ℚ) : ℚ := l.foldl (· + ·) 0

/-- Model of Math.min(...values) on a non-empty spread (0 on the empty
list, which the source never reaches: every call site guards non-emptiness). -/
def minList : List ℚ → ℚ
  | [] => 0
  | x :: xs => xs.foldl min x

/-- Model of Math.max(...values) on a non-empty spread (0 on the empty
list, which the source never reaches). -/
def maxList : List ℚ → ℚ
  | [] => 0
  | x :: xs => xs.foldl max x

/-- Arithmetic mean as computed in getVariability and computeMetricStats. -/
def listMean (l : List ℚ) : ℚ := listSum l / l.length

/-- Population variance as computed in getVariability. -/
def listVariance (l : List ℚ) : ℚ :=
  listSum (l.map fun v => (v - listMean l) ^ 2) / l.length

/-- getVariability from src/lib/history.ts.  The source compares
cv = Math.sqrt(variance) / mean against 0.2 and 0.45 when mean > 0.
Over the reals, for mean > 0 these comparisons are equivalent to
variance * 25 < mean ^ 2 (since 0.2 ^ 2 = 1 / 25) and
variance * 400 < mean ^ 2 * 81 (since 0.45 ^ 2 = 81 / 400), which is the
square-root-free form used here so the definition stays executable over ℚ;
theorem c2_variability_thresholds below proves this equivalence against the
literal sqrt formulation. -/
def getVariability (values : List ℚ) : Variability :=
  if values.length ≤ 1 then .Mixed
  else
    let mean := listMean values
    let variance := listVariance values
    if 0 < mean then
      if variance * 25 < mean ^ 2 then .Consistent
      else if variance * 400 < mean ^ 2 * 81 then .Mixed
      else .Volatile
    else
      let range := maxList values - minList values
      if range ≤ 1 then .Consistent
      else if range ≤ 3 then .Mixed
      else .Volatile

/-- The five chained filters of computeMetricStats, in source order:
region, chapter (skipped when the query chapter is the empty string, the
JS falsy check), metric key, month, strictly-prior year. -/
def filteredRows (history : List HistoryRow) (q : StatsQuery) : List HistoryRow :=
  ((((history.filter fun row => row.region = q.region).filter
      fun row => if q.chapter = "" then True else row.chapter = q.chapter).filter
      fun row => row.metric_key = q.metricKey).filter
      fun row => row.month = q.month).filter
      fun row => row.year < q.targetYear

/-- Stable insertion of a row into a list sorted by year descending;
ties keep the already-present element first, matching the stability of
Array.prototype.sort with comparator (a, b) => b.year - a.year. -/
def insertYearDesc (r : HistoryRow) : List HistoryRow → List HistoryRow
  | [] => [r]
  | x :: xs => if x.year ≤ r.year then r :: x :: xs else x :: insertYearDesc r xs

/-- Stable sort by year descending, modelling
.sort((a, b) => b.year - a.year) (JS sort is required to be stable). -/
def sortYearDesc : List HistoryRow → List HistoryRow
  | [] => []
  | x :: xs => insertYearDesc x (sortYearDesc xs)

/-- The matching value list of computeMetricStats: filter, sort by year
descending, keep at most the 4 most recent, project the values. -/
def selectedValues (history : List HistoryRow) (q : StatsQuery) : List ℚ :=
  (((sortYearDesc (filteredRows history q)).take 4).map fun row => row.value)

/-- computeMetricStats from src/lib/history.ts. -/
def computeMetricStats (history : List HistoryRow) (q : StatsQuery) : MetricStats :=
  let matching := selectedValues history q
  if matching = [] then
    { countYears := 0, avg := 0, min := 0, max := 0
      variability := .Mixed, hasHistory := false }
  else
    { countYears := matching.length
      avg := listSum matching / matching.length
      min := minList matching
      max := maxList matching
      variability := getVariability matching
      hasHistory := true }

/-- roundGoal from src/lib/history.ts: Math.max(0, Math.round(value)).
Math.round rounds half toward positive infinity, which is Mathlib's round. -/
def roundGoal (value : ℚ) : ℚ := ((max 0 (round value) : ℤ) : ℚ)

/-! CSV line scanner, from parseCsvLine in src/lib/history.ts. -/

/-- Character scan of parseCsvLine: walks the line with an in-quotes flag
and the field accumulated so far, emitting a field at each unquoted comma.
A double quote inside quotes followed by another double quote appends one
literal quote and skips the pair; any other double quote toggles the flag. -/
def csvScan : List Char → Bool → List Char → List (List Char)
  | [], _, current => [current]
  | '"' :: '"' :: rest, true, current => csvScan rest true (current ++ ['"'])
  | '"' :: rest, true, current => csvScan rest false current
  | '"' :: rest, false, current => csvScan rest true current
  | ',' :: rest, true, current => csvScan rest true (current ++ [','])
  | ',' :: rest, false, current => current :: csvScan rest false []
  | c :: rest, inQuotes, current => csvScan rest inQuotes (current ++ [c])

/-- parseCsvLine from src/lib/history.ts: scan the characters, then trim
every emitted field. -/
def parseCsvLine (line : String) : List String :=
  (csvScan line.data false []).map fun cs => trimStr ⟨cs⟩

/-! Submission filename building, from the submission module. -/

/-- SubmissionPayloadMetric, from src/types.ts. -/
structure SubmissionPayloadMetric where
  key : String
  label : String
  goalValue : ℚ
  reasons : List String
  note : String
deriving DecidableEq, Repr

/-- SubmissionPayload, from src/types.ts; metricsByMonth is the record
modelled as an association list. -/
structure SubmissionPayload where
  submissionId : String
  createdAtIso : String
  region : String
  chapter : String
  staff : String
  months : List String
  metricsByMonth : List (String × List SubmissionPayloadMetric)
  appVersion : String

/-- Model of value.replace(slash-s-plus, underscore): every maximal run of
whitespace characters becomes a single underscore.  The Boolean argument
records whether the previous character was whitespace. -/
def collapseWs : List Char → Bool → List Char
  | [], _ => []
  | c :: rest, prevWs =>
    if isJsWs c then
      if prevWs then collapseWs rest true
      else '_' :: collapseWs rest true
    else c :: collapseWs rest false

/-- Characters kept by the replace(non-alphanumeric-class, empty) step:
ASCII letters, digits, underscore and hyphen. -/
def isFileChar (c : Char) : Bool := c.isAlphanum || c = '_' || c = '-'

/-- sanitizeFilePart from the submission module: trim, collapse whitespace
runs to single underscores, strip disallowed characters, cap at 40
characters, and fall back to NA when empty. -/
def sanitizeFilePart (value : String) : String :=
  let w := (((collapseWs (trimStr value).data false).filter isFileChar).take 40)
  if w = [] then "NA" else ⟨w⟩

/-- Model of Array.prototype.join with a one-character separator. -/
def joinSep (sep : Char) : List String → String
  | [] => ""
  | [x] => x
  | x :: y :: rest => x ++ ⟨[sep]⟩ ++ joinSep sep (y :: rest)

/-- buildSubmissionFilename from the submission module. -/
def buildSubmissionFilename (payload : SubmissionPayload) : String :=
  let window := sanitizeFilePart (joinSep '-' payload.months)
  let region := sanitizeFilePart payload.region
  let chapter := sanitizeFilePart (if payload.chapter = "" then "NoChapter" else payload.chapter)
  let staff := sanitizeFilePart payload.staff
  "MonthlyGoals_" ++ window ++ "_" ++ region ++ "_" ++ chapter ++ "_" ++ staff ++ ".txt"

/-! Storage layer, from src/lib/storage.ts.  localStorage is modelled as an
association list from keys to stored strings; JSON.parse and JSON.stringify
are platform builtins outside this repository, so a stored string is
modelled up to JSON validity: a string that parses as JSON is represented
by its parse tree (StoredVal.json) and one that does not by
StoredVal.corrupt, with JSON.stringify producing the tree of its argument
and JSON.parse recovering exactly that tree (the builtins' documented
round-trip on JSON-representable values). -/

/-- JSON trees, the values representable by the platform JSON builtins. -/
inductive Json where
  | null
  | bool (b : Bool)
  | num (q : ℚ)
  | str (s : String)
  | arr (items : List Json)
  | obj (fields : List (String × Json))

/-- A persisted localStorage string, up to JSON validity. -/
inductive StoredVal where
  | json (j : Json)
  | corrupt (raw : String)

/-- The localStorage key-value store. -/
def Store := List (String × StoredVal)

/-- Model of localStorage.getItem. -/
def getItem (st : Store) (k : String) : Option StoredVal :=
  (st.find? fun p => p.1 == k).map fun p => p.2

/-- Model of localStorage.setItem (whole-value overwrite). -/
def setItem (st : Store) (k : String) (v : StoredVal) : Store :=
  (k, v) :: st.filter fun p => p.1 != k

/-- Model of localStorage.removeItem. -/
def removeItem (st : Store) (k : String) : Store :=
  st.filter fun p => p.1 != k

/-- Model of JSON.parse on a stored string: the tree when the string is
valid JSON, failure otherwise (the catch branch of the callers). -/
def parseStoredVal : StoredVal → Option Json
  | .json j => some j
  | .corrupt _ => none

/-- Profile, from src/types.ts. -/
structure Profile where
  staffName : String
  lastRegion : String
  lastChapter : String
deriving DecidableEq, Repr

/-- The blank profile used as the safe default in loadProfile. -/
def blankProfile : Profile := { staffName := "", lastRegion := "", lastChapter := "" }

/-- Member lookup on a JSON object (undefined on anything else). -/
def jsonMember (j : Json) (k : String) : Option Json :=
  match j with
  | .obj fields => (fields.find? fun p => p.1 == k).map fun p => p.2
  | _ => none

/-- Model of parsed.field ?? '' for a string-typed field. -/
def jsonStrField (j : Json) (k : String) : String :=
  match jsonMember j k with
  | some (.str s) => s
  | _ => ""

/-- loadProfile from src/lib/storage.ts: absent value yields the blank
profile, unparseable value is caught and yields the blank profile, and a
parsed object fills each field with '' as the fallback. -/
def loadProfile (st : Store) : Profile :=
  match getItem st "mgw.profile" with
  | none => blankProfile
  | some sv =>
    match parseStoredVal sv with
    | none => blankProfile
    | some j =>
      { staffName := jsonStrField j "staffName"
        lastRegion := jsonStrField j "lastRegion"
        lastChapter := jsonStrField j "lastChapter" }

/-- saveProfile from src/lib/storage.ts. -/
def saveProfile (st : Store) (p : Profile) : Store :=
  setItem st "mgw.profile" (.json (.obj
    [("staffName", .str p.staffName), ("lastRegion", .str p.lastRegion),
     ("lastChapter", .str p.lastChapter)]))

/-- buildDraftKey from src/lib/storage.ts: the draft-key head, a colon,
then trimmed region, trimmed chapter, trimmed staff and the month keys
joined with the pipe separator. -/
def buildDraftKey (region chapter staff : String) (months : List String) : String :=
  "mgw.draft:" ++ joinSep '|' ([trimStr region, trimStr chapter, trimStr staff] ++ months)

/-- loadDraft from src/lib/storage.ts: absent or unparseable stored value
yields null (the catch branch), otherwise the parsed tree (the source casts
it to GoalsByMonth without validation, so the model returns the tree). -/
def loadDraft (st : Store) (k : String) : Option Json :=
  match getItem st k with
  | none => none
  | some sv => parseStoredVal sv

/-- saveDraft from src/lib/storage.ts. -/
def saveDraft (st : Store) (k : String) (draft : Json) : Store :=
  setItem st k (.json draft)

/-- clearDraft from src/lib/storage.ts. -/
def clearDraft (st : Store) (k : String) : Store :=
  removeItem st k

/-- Test for a JSON string. -/
def isJsonStr : Json → Bool
  | .str _ => true
  | _ => false

/-- Shape check for one MetricDraft: goalValue is a number or null,
reasons is an array of strings, note is a string. -/
def isMetricDraft (j : Json) : Bool :=
  match jsonMember j "goalValue", jsonMember j "reasons", jsonMember j "note" with
  | some gv, some (.arr rs), some (.str _) =>
    (match gv with
     | .num _ => true
     | .null => true
     | _ => false) && rs.all isJsonStr
  | _, _, _ => false

/-- Shape check for the inner per-month record: metric key to MetricDraft. -/
def isMetricMap : Json → Bool
  | .obj metrics => metrics.all fun p => isMetricDraft p.2
  | _ => false

/-- Well-formed GoalsByMonth: month key to metric key to MetricDraft. -/
def wellFormedGoals : Json → Bool
  | .obj months => months.all fun p => isMetricMap p.2
  | _ => false

/-! Claim C4: draft-key separation.  The key joins components with the
pipe character, so distinctness of keys holds only for components free of
that separator; the pipe-free hypothesis below is exactly what the
counterexample forces. -/

/-- A string not containing the draft-key separator. -/
def pipeFree (s : String) : Prop := '|' ∉ s.data

instance pipeFree_decidable (s : String) : Decidable (pipeFree s) :=
  inferInstanceAs (Decidable ('|' ∉ s.data))

/-- Character-list image of joinSep. -/
def joinC (sep : Char) : List (List Char) → List Char
  | [] => []
  | [x] => x
  | x :: y :: rest => x ++ sep :: joinC sep (y :: rest)

/-! Helper lemmas about the list aggregates. -/

lemma foldl_add_shift (l : List ℚ) (a : ℚ) :
    l.foldl (· + ·) a = a + l.foldl (· + ·) 0 := by
  induction l generalizing a with
  | nil => simp
  | cons x xs ih =>
    simp only [List.foldl_cons]
    rw [ih (a + x), ih (0 + x)]
    ring

lemma listSum_cons (x : ℚ) (xs : List ℚ) : listSum (x :: xs) = x + listSum xs := by
  simp only [listSum, List.foldl_cons]
  rw [foldl_add_shift xs (0 + x)]
  ring

lemma foldl_min_le_init (l : List ℚ) (a : ℚ) : l.foldl min a ≤ a := by
  induction l generalizing a with
  | nil => simp
  | cons x xs ih => exact le_trans (ih (min a x)) (min_le_left a x)

lemma le_foldl_max_init (l : List ℚ) (a : ℚ) : a ≤ l.foldl max a := by
  induction l generalizing a with
  | nil => simp
  | cons x xs ih => exact le_trans (le_max_left a x) (ih (max a x))

lemma foldl_min_mul_le (l : List ℚ) (a : ℚ) :
    l.foldl min a * (1 + l.length) ≤ a + listSum l := by
  induction l generalizing a with
  | nil => simp [listSum]
  | cons x xs ih =>
    have h1 := ih (min a x)
    have h2 : xs.foldl min (min a x) ≤ a :=
      le_trans (foldl_min_le_init xs (min a x)) (min_le_left a x)
    have h3 : xs.foldl min (min a x) ≤ x :=
      le_trans (foldl_min_le_init xs (min a x)) (min_le_right a x)
    have h4 : min a x ≤ x := min_le_right a x
    simp only [List.foldl_cons, listSum_cons, List.length_cons]
    push_cast
    push_cast at h1
    nlinarith [h1, h2, h4]

lemma le_foldl_max_mul (l : List ℚ) (a : ℚ) :
    a + listSum l ≤ l.foldl max a * (1 + l.length) := by
  induction l generalizing a with
  | nil => simp [listSum]
  | cons x xs ih =>
    have h1 := ih (max a x)
    have h2 : a ≤ xs.foldl max (max a x) :=
      le_trans (le_max_left a x) (le_foldl_max_init xs (max a x))
    have h4 : x ≤ max a x := le_max_right a x
    simp only [List.foldl_cons, listSum_cons, List.length_cons]
    push_cast
    push_cast at h1
    nlinarith [h1, h2, h4]

lemma minList_mul_length_le_sum (l : List ℚ) (hne : l ≠ []) :
    minList l * l.length ≤ listSum l := by
  cases l with
  | nil => simp at hne
  | cons x xs =>
    have := foldl_min_mul_le xs x
    simpa [minList, listSum_cons, List.length_cons, add_comm] using this

lemma sum_le_maxList_mul_length (l : List ℚ) (hne : l ≠ []) :
    listSum l ≤ maxList l * l.length := by
  cases l with
  | nil => simp at hne
  | cons x xs =>
    have := le_foldl_max_mul xs x
    simpa [maxList, listSum_cons, List.length_cons, add_comm] using this

lemma length_insertYearDesc (r : HistoryRow) (l : List HistoryRow) :
    (insertYearDesc r l).length = l.length + 1 := by
  induction l with
  | nil => rfl
  | cons x xs ih =>
    simp only [insertYearDesc]
    split
    · simp
    · simp [ih]

lemma length_sortYearDesc (l : List HistoryRow) :
    (sortYearDesc l).length = l.length := by
  induction l with
  | nil => rfl
  | cons x xs ih => simp [sortYearDesc, length_insertYearDesc, ih]

lemma length_selectedValues (history : List HistoryRow) (q : StatsQuery) :
    (selectedValues history q).length = min 4 (filteredRows history q).length := by
  simp [selectedValues, List.length_take, length_sortYearDesc]

lemma filteredRows_append (l₁ l₂ : List HistoryRow) (q : StatsQuery) :
    filteredRows (l₁ ++ l₂) q = filteredRows l₁ q ++ filteredRows l₂ q := by
  simp [filteredRows, List.filter_append]

lemma filteredRows_cons_skip (r : HistoryRow) (l : List HistoryRow) (q : StatsQuery)
    (hr : ¬ r.year < q.targetYear) :
    filteredRows (r :: l) q = filteredRows l q := by
  simp only [filteredRows, List.filter_filter]
  rw [List.filter_cons_of_neg]
  simp [hr]

lemma computeMetricStats_congr (h h' : List HistoryRow) (q : StatsQuery)
    (he : filteredRows h q = filteredRows h' q) :
    computeMetricStats h q = computeMetricStats h' q := by
  unfold computeMetricStats selectedValues
  rw [he]

/-- C1: on a non-empty matching set the stats satisfy min ≤ avg ≤ max and
countYears = min(4, eligible prior-year row count); and inserting a row with
year ≥ targetYear anywhere (or the same row with its value changed) never
changes the result. -/
theorem c1_stats_bounds_count_and_prior_year_only
    (history h₁ h₂ : List HistoryRow) (q : StatsQuery) (r : HistoryRow) (w : ℚ)
    (hne : filteredRows history q ≠ []) (hr : q.targetYear ≤ r.year) :
    (computeMetricStats history q).min ≤ (computeMetricStats history q).avg ∧
    (computeMetricStats history q).avg ≤ (computeMetricStats history q).max ∧
    (computeMetricStats history q).countYears = min 4 (filteredRows history q).length ∧
    computeMetricStats (h₁ ++ r :: h₂) q = computeMetricStats (h₁ ++ h₂) q ∧
    computeMetricStats (h₁ ++ { r with value := w } :: h₂) q
      = computeMetricStats (h₁ ++ h₂) q := by
  have hlen : (selectedValues history q).length = min 4 (filteredRows history q).length :=
    length_selectedValues history q
  have hpos : 0 < (filteredRows history q).length := List.length_pos.mpr hne
  have hmpos : 0 < (selectedValues history q).length := by
    rw [hlen]; omega
  have hmne : selectedValues history q ≠ [] := by
    intro h
    rw [h] at hmpos
    simp at hmpos
  have hqpos : (0 : ℚ) < ((selectedValues history q).length : ℚ) := by
    exact_mod_cast hmpos
  have hstats : computeMetricStats history q =
      { countYears := (selectedValues history q).length
        avg := listSum (selectedValues history q) / (selectedValues history q).length
        min := minList (selectedValues history q)
        max := maxList (selectedValues history q)
        variability := getVariability (selectedValues history q)
        hasHistory := true } := by
    unfold computeMetricStats
    simp [hmne]
  have hskip : ∀ r' : HistoryRow, ¬ r'.year < q.targetYear →
      computeMetricStats (h₁ ++ r' :: h₂) q = computeMetricStats (h₁ ++ h₂) q := by
    intro r' hr'
    apply computeMetricStats_congr
    rw [filteredRows_append, filteredRows_append, filteredRows_cons_skip r' h₂ q hr']
  refine ⟨?_, ?_, ?_, ?_, ?_⟩
  · rw [hstats]
    have := minList_mul_length_le_sum (selectedValues history q) hmne
    rw [le_div_iff₀ hqpos]
    exact this
  · rw [hstats]
    have := sum_le_maxList_mul_length (selectedValues history q) hmne
    rw [div_le_iff₀ hqpos]
    exact this
  · rw [hstats, ← hlen]
  · exact hskip r (by omega)
  · exact hskip { r with value := w } (by simp; omega)

/-- C1 witness at a concrete history and query. -/
theorem c1_stats_bounds_count_and_prior_year_only_witness :
    (filteredRows
        [⟨"Midwest", "Chicago", "events", 2023, 3, 5⟩,
         ⟨"Midwest", "Chicago", "events", 2024, 3, 7⟩]
        ⟨"Midwest", "Chicago", "events", 3, 2025⟩ ≠ []) ∧
    ((2025 : Int) ≤ (⟨"Midwest", "Chicago", "events", 2026, 3, 9⟩ : HistoryRow).year) ∧
    (computeMetricStats
        [⟨"Midwest", "Chicago", "events", 2023, 3, 5⟩,
         ⟨"Midwest", "Chicago", "events", 2024, 3, 7⟩]
        ⟨"Midwest", "Chicago", "events", 3, 2025⟩).min ≤
      (computeMetricStats
        [⟨"Midwest", "Chicago", "events", 2023, 3, 5⟩,
         ⟨"Midwest", "Chicago", "events", 2024, 3, 7⟩]
        ⟨"Midwest", "Chicago", "events", 3, 2025⟩).avg := by
  refine ⟨by decide, by decide, ?_⟩
  exact (c1_stats_bounds_count_and_prior_year_only
    [⟨"Midwest", "Chicago", "events", 2023, 3, 5⟩,
     ⟨"Midwest", "Chicago", "events", 2024, 3, 7⟩]
    [] []
    ⟨"Midwest", "Chicago", "events", 3, 2025⟩
    ⟨"Midwest", "Chicago", "events", 2026, 3, 9⟩ 0
    (by decide) (by decide)).1

/-- C3: with zero matching rows computeMetricStats returns
hasHistory = false, countYears = 0, zeroed stats and variability Mixed. -/
theorem c3_no_matching_rows_zero_stats
    (history : List HistoryRow) (q : StatsQuery)
    (h0 : filteredRows history q = []) :
    computeMetricStats history q =
      { countYears := 0, avg := 0, min := 0, max := 0
        variability := .Mixed, hasHistory := false } := by
  unfold computeMetricStats selectedValues
  rw [h0]
  simp [sortYearDesc]

/-- C3 witness at a concrete history and query. -/
theorem c3_no_matching_rows_zero_stats_witness :
    (filteredRows [⟨"Midwest", "Chicago", "events", 2025, 3, 5⟩]
        ⟨"Midwest", "Chicago", "events", 3, 2025⟩ = []) ∧
    computeMetricStats [⟨"Midwest", "Chicago", "events", 2025, 3, 5⟩]
        ⟨"Midwest", "Chicago", "events", 3, 2025⟩ =
      { countYears := 0, avg := 0, min := 0, max := 0
        variability := .Mixed, hasHistory := false } :=
  ⟨by decide,
   c3_no_matching_rows_zero_stats [⟨"Midwest", "Chicago", "events", 2025, 3, 5⟩]
     ⟨"Midwest", "Chicago", "events", 3, 2025⟩ (by decide)⟩

/-- C10: when exactly one row matches, the variability is Mixed regardless
of the row's value. -/
theorem c10_single_row_always_mixed
    (history : List HistoryRow) (q : StatsQuery)
    (h1 : (filteredRows history q).length = 1) :
    (computeMetricStats history q).variability = .Mixed := by
  have hlen : (selectedValues history q).length = 1 := by
    rw [length_selectedValues, h1]
    decide
  have hmne : selectedValues history q ≠ [] := by
    intro h
    rw [h] at hlen
    simp at hlen
  unfold computeMetricStats
  simp only [hmne, if_neg, ite_false]
  show getVariability (selectedValues history q) = .Mixed
  unfold getVariability
  rw [if_pos (by omega)]

/-- C10 witness: a single matching row with a positive value (cv would be 0)
still yields Mixed. -/
theorem c10_single_row_always_mixed_witness :
    ((filteredRows [⟨"Midwest", "Chicago", "events", 2024, 3, 7⟩]
        ⟨"Midwest", "Chicago", "events", 3, 2025⟩).length = 1) ∧
    (computeMetricStats [⟨"Midwest", "Chicago", "events", 2024, 3, 7⟩]
        ⟨"Midwest", "Chicago", "events", 3, 2025⟩).variability = .Mixed :=
  ⟨by decide,
   c10_single_row_always_mixed [⟨"Midwest", "Chicago", "events", 2024, 3, 7⟩]
     ⟨"Midwest", "Chicago", "events", 3, 2025⟩ (by decide)⟩

/-! Claim C2: the square-root-free comparisons of getVariability agree with
the literal coefficient-of-variation comparisons of the source. -/

lemma cv_lt_iff (v m : ℚ) (c : ℝ) (hm : 0 < m) (hc : 0 < c) :
    Real.sqrt (v : ℝ) / (m : ℝ) < c ↔ (v : ℝ) < c ^ 2 * (m : ℝ) ^ 2 := by
  have hm' : (0 : ℝ) < (m : ℝ) := by exact_mod_cast hm
  rw [div_lt_iff₀ hm', Real.sqrt_lt' (mul_pos hc hm'), mul_pow]

lemma cv_lt_02_iff (v m : ℚ) (hm : 0 < m) :
    Real.sqrt (v : ℝ) / (m : ℝ) < 0.2 ↔ v * 25 < m ^ 2 := by
  rw [cv_lt_iff v m 0.2 hm (by norm_num)]
  constructor
  · intro h
    have h' : (v : ℝ) * 25 < (m : ℝ) ^ 2 := by nlinarith
    exact_mod_cast h'
  · intro h
    have h' : (v : ℝ) * 25 < (m : ℝ) ^ 2 := by exact_mod_cast h
    nlinarith

lemma cv_lt_045_iff (v m : ℚ) (hm : 0 < m) :
    Real.sqrt (v : ℝ) / (m : ℝ) < 0.45 ↔ v * 400 < m ^ 2 * 81 := by
  rw [cv_lt_iff v m 0.45 hm (by norm_num)]
  constructor
  · intro h
    have h' : (v : ℝ) * 400 < (m : ℝ) ^ 2 * 81 := by nlinarith
    exact_mod_cast h'
  · intro h
    have h' : (v : ℝ) * 400 < (m : ℝ) ^ 2 * 81 := by exact_mod_cast h
    nlinarith

/-- C2 (amended to value sets of size at least 2, forced by the singleton
counterexample): for at least two selected values, when the mean is
positive the label follows the population coefficient of variation with
thresholds 0.2 and 0.45, and when the mean is zero it follows the absolute
range with thresholds 1 and 3. -/
theorem c2_variability_thresholds (vals : List ℚ) (h2 : 2 ≤ vals.length) :
    (0 < listMean vals →
      ((getVariability vals = .Consistent ↔
          Real.sqrt (listVariance vals : ℝ) / (listMean vals : ℝ) < 0.2) ∧
       (getVariability vals = .Mixed ↔
          (0.2 ≤ Real.sqrt (listVariance vals : ℝ) / (listMean vals : ℝ) ∧
           Real.sqrt (listVariance vals : ℝ) / (listMean vals : ℝ) < 0.45)) ∧
       (getVariability vals = .Volatile ↔
          0.45 ≤ Real.sqrt (listVariance vals : ℝ) / (listMean vals : ℝ)))) ∧
    (listMean vals = 0 →
      ((getVariability vals = .Consistent ↔ maxList vals - minList vals ≤ 1) ∧
       (getVariability vals = .Mixed ↔
          (1 < maxList vals - minList vals ∧ maxList vals - minList vals ≤ 3)) ∧
       (getVariability vals = .Volatile ↔ 3 < maxList vals - minList vals))) := by
  have hbranch : getVariability vals =
      (if 0 < listMean vals then
        if listVariance vals * 25 < listMean vals ^ 2 then .Consistent
        else if listVariance vals * 400 < listMean vals ^ 2 * 81 then .Mixed
        else .Volatile
      else
        if maxList vals - minList vals ≤ 1 then .Consistent
        else if maxList vals - minList vals ≤ 3 then .Mixed
        else .Volatile) := by
    unfold getVariability
    rw [if_neg (by omega)]
  constructor
  · intro hm
    have h02 := cv_lt_02_iff (listVariance vals) (listMean vals) hm
    have h045 := cv_lt_045_iff (listVariance vals) (listMean vals) hm
    rw [hbranch, if_pos hm]
    by_cases hA : listVariance vals * 25 < listMean vals ^ 2
    · rw [if_pos hA]
      have hcv02 : Real.sqrt (listVariance vals : ℝ) / (listMean vals : ℝ) < 0.2 :=
        h02.mpr hA
      have hcv045 : Real.sqrt (listVariance vals : ℝ) / (listMean vals : ℝ) < 0.45 :=
        lt_trans hcv02 (by norm_num)
      refine ⟨iff_of_true rfl hcv02, iff_of_false (by simp) ?_, iff_of_false (by simp) ?_⟩
      · rintro ⟨hge, -⟩
        exact absurd hcv02 (not_lt.mpr hge)
      · intro hge
        exact absurd hcv045 (not_lt.mpr hge)
    · rw [if_neg hA]
      have hge02 : 0.2 ≤ Real.sqrt (listVariance vals : ℝ) / (listMean vals : ℝ) :=
        not_lt.mp fun hlt => hA (h02.mp hlt)
      by_cases hB : listVariance vals * 400 < listMean vals ^ 2 * 81
      · rw [if_pos hB]
        have hcv045 : Real.sqrt (listVariance vals : ℝ) / (listMean vals : ℝ) < 0.45 :=
          h045.mpr hB
        refine ⟨iff_of_false (by simp) ?_, iff_of_true rfl ⟨hge02, hcv045⟩,
          iff_of_false (by simp) ?_⟩
        · intro hlt
          exact absurd hge02 (not_le.mpr hlt)
        · intro hge
          exact absurd hcv045 (not_lt.mpr hge)
      · rw [if_neg hB]
        have hge045 : 0.45 ≤ Real.sqrt (listVariance vals : ℝ) / (listMean vals : ℝ) :=
          not_lt.mp fun hlt => hB (h045.mp hlt)
        refine ⟨iff_of_false (by simp) ?_, iff_of_false (by simp) ?_,
          iff_of_true rfl hge045⟩
        · intro hlt
          exact absurd hlt (not_lt.mpr (le_trans (by norm_num) hge045))
        · rintro ⟨-, hlt⟩
          exact absurd hge045 (not_le.mpr hlt)
  · intro hm0
    rw [hbranch, if_neg (by rw [hm0]; exact lt_irrefl 0)]
    by_cases hA : maxList vals - minList vals ≤ 1
    · rw [if_pos hA]
      refine ⟨iff_of_true rfl hA, iff_of_false (by simp) ?_, iff_of_false (by simp) ?_⟩
      · rintro ⟨hgt, -⟩
        exact absurd hA (not_le.mpr hgt)
      · intro hgt
        exact absurd hA (not_le.mpr (lt_trans (by norm_num) hgt))
    · rw [if_neg hA]
      by_cases hB : maxList vals - minList vals ≤ 3
      · rw [if_pos hB]
        refine ⟨iff_of_false (by simp) ?_, iff_of_true rfl ⟨not_le.mp hA, hB⟩,
          iff_of_false (by simp) ?_⟩
        · intro hle
          exact hA hle
        · intro hgt
          exact absurd hB (not_le.mpr hgt)
      · rw [if_neg hB]
        refine ⟨iff_of_false (by simp) ?_, iff_of_false (by simp) ?_,
          iff_of_true rfl (not_le.mp hB)⟩
        · intro hle
          exact hA hle
        · rintro ⟨-, hle⟩
          exact hB hle

/-- C2 counterexample: on the singleton selected set [5] the mean is
positive and the coefficient of variation is 0 < 0.2, yet getVariability
returns Mixed, not Consistent, refuting the claim over all non-empty sets. -/
theorem c2_counterexample_singleton :
    0 < listMean [(5 : ℚ)] ∧
    Real.sqrt (listVariance [(5 : ℚ)] : ℝ) / (listMean [(5 : ℚ)] : ℝ) < 0.2 ∧
    getVariability [(5 : ℚ)] ≠ .Consistent := by
  have hm : listMean [(5 : ℚ)] = 5 := by norm_num [listMean, listSum]
  have hv : listVariance [(5 : ℚ)] = 0 := by
    norm_num [listVariance, listMean, listSum]
  refine ⟨by rw [hm]; norm_num, ?_, by decide⟩
  rw [hm, hv]
  push_cast
  rw [Real.sqrt_zero]
  norm_num

/-- C2 witness at the concrete two-element set [5, 7]. -/
theorem c2_variability_thresholds_witness :
    (2 ≤ ([(5 : ℚ), 7]).length) ∧
    (0 < listMean [(5 : ℚ), 7] →
      (getVariability [(5 : ℚ), 7] = .Consistent ↔
        Real.sqrt (listVariance [(5 : ℚ), 7] : ℝ) / (listMean [(5 : ℚ), 7] : ℝ) < 0.2)) :=
  ⟨by decide, fun hm => ((c2_variability_thresholds [(5 : ℚ), 7] (by decide)).1 hm).1⟩

/-- C6: the quoted field with an embedded comma and an escaped quote parses
to one field, and in general inside quotes a comma is accumulated rather
than splitting and an escaped pair of quotes accumulates a single literal
quote. -/
theorem c6_parseCsvLine_quoted_field :
    parseCsvLine "\"Chicago, IL \"\"North\"\"\"" = ["Chicago, IL \"North\""] ∧
    (∀ (rest : List Char) (current : List Char),
      csvScan (',' :: rest) true current = csvScan rest true (current ++ [','])) ∧
    (∀ (rest : List Char) (current : List Char),
      csvScan ('"' :: '"' :: rest) true current = csvScan rest true (current ++ ['"'])) := by
  refine ⟨by decide, ?_, ?_⟩
  · intro rest current
    simp [csvScan]
  · intro rest current
    simp [csvScan]

/-- C9: the filename joins the sanitized parts, and at the concrete input
(region Midwest, empty chapter, staff Jo Lee, months [2025-03]) the chapter
token falls back to NoChapter and the space in the staff name becomes an
underscore. -/
theorem c9_buildSubmissionFilename :
    (∀ p : SubmissionPayload, buildSubmissionFilename p =
      "MonthlyGoals_" ++ sanitizeFilePart (joinSep '-' p.months) ++ "_" ++
        sanitizeFilePart p.region ++ "_" ++
        sanitizeFilePart (if p.chapter = "" then "NoChapter" else p.chapter) ++ "_" ++
        sanitizeFilePart p.staff ++ ".txt") ∧
    buildSubmissionFilename
      { submissionId := "id", createdAtIso := "t", region := "Midwest"
        chapter := "", staff := "Jo Lee", months := ["2025-03"]
        metricsByMonth := [], appVersion := "1.0.0" } =
      "MonthlyGoals_2025-03_Midwest_NoChapter_Jo_Lee.txt" ∧
    sanitizeFilePart "" = "NA" ∧ sanitizeFilePart "Jo Lee" = "Jo_Lee" :=
  ⟨fun _ => rfl, by decide, by decide, by decide⟩

lemma find?_const_false (l : List (String × StoredVal)) :
    l.find? (fun _ => false) = none := by
  induction l with
  | nil => rfl
  | cons p ps ih => simp [List.find?_cons, ih]

lemma find?_filter_ne (st : Store) (k : String) :
    ((st.filter fun p => p.1 != k).find? fun p => p.1 == k) = none := by
  induction st with
  | nil => rfl
  | cons p ps ih =>
    by_cases h : p.1 == k
    · simp [List.filter_cons, bne, h, ih]
    · simp [List.filter_cons, bne, h, List.find?_cons, ih]

/-- C5: after saveDraft at key k, loadDraft at k returns the saved
well-formed goals; after clearDraft at k, loadDraft at k returns null. -/
theorem c5_draft_roundtrip (st : Store) (k : String) (g : Json)
    (hg : wellFormedGoals g = true) :
    loadDraft (saveDraft st k g) k = some g ∧
    loadDraft (clearDraft st k) k = none := by
  constructor
  · simp [loadDraft, saveDraft, setItem, getItem, List.find?_cons, parseStoredVal]
  · simp [loadDraft, clearDraft, removeItem, getItem, find?_filter_ne, find?_const_false]

/-- C5 witness at a concrete store, key and goals value. -/
theorem c5_draft_roundtrip_witness :
    (wellFormedGoals (.obj [("2025-03", .obj [("events", .obj
        [("goalValue", .num 3), ("reasons", .arr [.str "ramp"]),
         ("note", .str "")])])]) = true) ∧
    loadDraft (saveDraft [] "mgw.draft:Midwest||Jo|2025-03"
        (.obj [("2025-03", .obj [("events", .obj
          [("goalValue", .num 3), ("reasons", .arr [.str "ramp"]),
           ("note", .str "")])])]))
        "mgw.draft:Midwest||Jo|2025-03" =
      some (.obj [("2025-03", .obj [("events", .obj
        [("goalValue", .num 3), ("reasons", .arr [.str "ramp"]),
         ("note", .str "")])])]) :=
  ⟨by decide,
   (c5_draft_roundtrip [] "mgw.draft:Midwest||Jo|2025-03"
     (.obj [("2025-03", .obj [("events", .obj
       [("goalValue", .num 3), ("reasons", .arr [.str "ramp"]),
        ("note", .str "")])])]) (by decide)).1⟩

/-- C8: an absent or unparseable stored value makes loadProfile return the
blank profile and loadDraft return null; both are total functions, so no
error propagates. -/
theorem c8_storage_safe_defaults (st : Store) (k : String) :
    ((getItem st "mgw.profile" = none ∨
        ∃ s, getItem st "mgw.profile" = some (.corrupt s)) →
      loadProfile st = blankProfile) ∧
    ((getItem st k = none ∨ ∃ s, getItem st k = some (.corrupt s)) →
      loadDraft st k = none) := by
  constructor
  · rintro (h | ⟨s, h⟩) <;> simp [loadProfile, h, parseStoredVal]
  · rintro (h | ⟨s, h⟩) <;> simp [loadDraft, h, parseStoredVal]

/-- C8 witness: a store whose profile entry is corrupt and whose queried
draft key is absent. -/
theorem c8_storage_safe_defaults_witness :
    loadProfile [("mgw.profile", .corrupt "oops")] = blankProfile ∧
    loadDraft [("mgw.profile", .corrupt "oops")] "mgw.draft:x" = none :=
  ⟨(c8_storage_safe_defaults [("mgw.profile", .corrupt "oops")] "mgw.draft:x").1
     (Or.inr ⟨"oops", rfl⟩),
   (c8_storage_safe_defaults [("mgw.profile", .corrupt "oops")] "mgw.draft:x").2
     (Or.inl rfl)⟩

lemma joinSep_data (sep : Char) (l : List String) :
    (joinSep sep l).data = joinC sep (l.map fun s => s.data) := by
  induction l with
  | nil => rfl
  | cons x xs ih =>
    cases xs with
    | nil => rfl
    | cons y ys =>
      show (x ++ ⟨[sep]⟩ ++ joinSep sep (y :: ys)).data
          = x.data ++ sep :: joinC sep ((y :: ys).map fun s => s.data)
      rw [String.data_append, String.data_append, ih]
      simp

lemma sep_split (sep : Char) (a : List Char) : ∀ b u v : List Char,
    sep ∉ a → sep ∉ b → a ++ sep :: u = b ++ sep :: v → a = b ∧ u = v := by
  induction a with
  | nil =>
    intro b u v _ hb h
    cases b with
    | nil =>
      simp only [List.nil_append, List.cons.injEq] at h
      exact ⟨rfl, h.2⟩
    | cons y ys =>
      simp only [List.nil_append, List.cons_append] at h
      obtain ⟨h1, -⟩ := List.cons.inj h
      subst h1
      exact absurd (List.mem_cons_self _ _) hb
  | cons x xs ih =>
    intro b u v ha hb h
    cases b with
    | nil =>
      simp only [List.cons_append, List.nil_append] at h
      obtain ⟨h1, -⟩ := List.cons.inj h
      subst h1
      exact absurd (List.mem_cons_self _ _) ha
    | cons y ys =>
      simp only [List.cons_append] at h
      obtain ⟨h1, h2⟩ := List.cons.inj h
      have ha' : sep ∉ xs := fun hm => ha (List.mem_cons_of_mem _ hm)
      have hb' : sep ∉ ys := fun hm => hb (List.mem_cons_of_mem _ hm)
      obtain ⟨hab, huv⟩ := ih ys u v ha' hb' h2
      exact ⟨by rw [h1, hab], huv⟩

lemma joinC_inj (sep : Char) (l₁ : List (List Char)) : ∀ l₂ : List (List Char),
    l₁ ≠ [] → l₂ ≠ [] → (∀ x ∈ l₁, sep ∉ x) → (∀ x ∈ l₂, sep ∉ x) →
    joinC sep l₁ = joinC sep l₂ → l₁ = l₂ := by
  induction l₁ with
  | nil => intro l₂ h1; exact absurd rfl h1
  | cons a rest ih =>
    intro l₂ _ h2 pf1 pf2 heq
    cases l₂ with
    | nil => exact absurd rfl h2
    | cons b rest2 =>
      cases rest with
      | nil =>
        cases rest2 with
        | nil =>
          simp only [joinC] at heq
          rw [heq]
        | cons b2 bs =>
          simp only [joinC] at heq
          have hmem : sep ∈ a := by
            rw [heq]
            exact List.mem_append_right _ (List.mem_cons_self _ _)
          exact absurd hmem (pf1 a (List.mem_cons_self _ _))
      | cons a2 as =>
        cases rest2 with
        | nil =>
          simp only [joinC] at heq
          have hmem : sep ∈ b := by
            rw [← heq]
            exact List.mem_append_right _ (List.mem_cons_self _ _)
          exact absurd hmem (pf2 b (List.mem_cons_self _ _))
        | cons b2 bs =>
          simp only [joinC] at heq
          obtain ⟨hab, htail⟩ := sep_split sep a b _ _
            (pf1 a (List.mem_cons_self _ _)) (pf2 b (List.mem_cons_self _ _)) heq
          have hrest := ih (b2 :: bs) (by simp) (by simp)
            (fun x hx => pf1 x (List.mem_cons_of_mem _ hx))
            (fun x hx => pf2 x (List.mem_cons_of_mem _ hx)) htail
          rw [hab, hrest]

lemma string_data_injective : Function.Injective String.data :=
  fun _ _ h => String.ext h

/-- C4 (amended with the pipe-free hypotheses the counterexample forces):
two keys are equal exactly when trimmed region, trimmed chapter, trimmed
staff and the ordered month-key lists all agree; in particular equal
trimmed components give identical keys and any differing component gives a
different key. -/
theorem c4_buildDraftKey_separates
    (r₁ c₁ s₁ : String) (m₁ : List String) (r₂ c₂ s₂ : String) (m₂ : List String)
    (h₁r : pipeFree (trimStr r₁)) (h₁c : pipeFree (trimStr c₁))
    (h₁s : pipeFree (trimStr s₁)) (h₁m : ∀ m ∈ m₁, pipeFree m)
    (h₂r : pipeFree (trimStr r₂)) (h₂c : pipeFree (trimStr c₂))
    (h₂s : pipeFree (trimStr s₂)) (h₂m : ∀ m ∈ m₂, pipeFree m) :
    buildDraftKey r₁ c₁ s₁ m₁ = buildDraftKey r₂ c₂ s₂ m₂ ↔
      (trimStr r₁ = trimStr r₂ ∧ trimStr c₁ = trimStr c₂ ∧
       trimStr s₁ = trimStr s₂ ∧ m₁ = m₂) := by
  constructor
  · intro h
    have hdata := congrArg String.data h
    rw [buildDraftKey, buildDraftKey, String.data_append, String.data_append] at hdata
    have hjoin := List.append_cancel_left hdata
    rw [joinSep_data, joinSep_data] at hjoin
    have pf1 : ∀ x ∈ (([trimStr r₁, trimStr c₁, trimStr s₁] ++ m₁).map
        fun s => s.data), '|' ∉ x := by
      intro x hx
      rw [List.mem_map] at hx
      obtain ⟨s, hs, rfl⟩ := hx
      rw [List.mem_append] at hs
      rcases hs with hs | hs
      · have : s = trimStr r₁ ∨ s = trimStr c₁ ∨ s = trimStr s₁ := by simpa using hs
        rcases this with rfl | rfl | rfl
        · exact h₁r
        · exact h₁c
        · exact h₁s
      · exact h₁m s hs
    have pf2 : ∀ x ∈ (([trimStr r₂, trimStr c₂, trimStr s₂] ++ m₂).map
        fun s => s.data), '|' ∉ x := by
      intro x hx
      rw [List.mem_map] at hx
      obtain ⟨s, hs, rfl⟩ := hx
      rw [List.mem_append] at hs
      rcases hs with hs | hs
      · have : s = trimStr r₂ ∨ s = trimStr c₂ ∨ s = trimStr s₂ := by simpa using hs
        rcases this with rfl | rfl | rfl
        · exact h₂r
        · exact h₂c
        · exact h₂s
      · exact h₂m s hs
    have hmap := joinC_inj '|' _ _ (by simp) (by simp) pf1 pf2 hjoin
    have hlists := List.map_injective_iff.mpr string_data_injective hmap
    simp only [List.cons_append, List.nil_append, List.cons.injEq] at hlists
    exact ⟨hlists.1, hlists.2.1, hlists.2.2.1, hlists.2.2.2⟩
  · rintro ⟨h1, h2, h3, h4⟩
    rw [buildDraftKey, buildDraftKey, h1, h2, h3, h4]

/-- C4 counterexample: with a pipe inside a component, two calls whose
trimmed components differ still collide on the same key, refuting the
unrestricted distinctness claim. -/
theorem c4_counterexample_pipe_collision :
    buildDraftKey "a" "b|c" "s" [] = buildDraftKey "a|b" "c" "s" [] ∧
    trimStr "a" ≠ trimStr "a|b" := by
  constructor
  · decide
  · decide

/-- C4 witness at concrete pipe-free inputs differing only in whitespace. -/
theorem c4_buildDraftKey_separates_witness :
    pipeFree (trimStr " Midwest ") ∧
    (buildDraftKey " Midwest " "Chi" "Jo" ["2025-03"] =
        buildDraftKey "Midwest" "Chi" "Jo" ["2025-03"] ↔
      (trimStr " Midwest " = trimStr "Midwest" ∧ trimStr "Chi" = trimStr "Chi" ∧
       trimStr "Jo" = trimStr "Jo" ∧
       (["2025-03"] : List String) = ["2025-03"])) :=
  ⟨by decide,
   c4_buildDraftKey_separates " Midwest " "Chi" "Jo" ["2025-03"]
     "Midwest" "Chi" "Jo" ["2025-03"]
     (by decide) (by decide) (by decide) (by decide)
     (by decide) (by decide) (by decide) (by decide)⟩

/-- C7: roundGoal is idempotent, non-negative, and lands on a natural
number (standard rounding floored at 0). -/
theorem c7_roundGoal_idempotent_nonneg (x : ℚ) :
    roundGoal (roundGoal x) = roundGoal x ∧ 0 ≤ roundGoal x ∧
      ∃ n : ℕ, roundGoal x = (n : ℚ) := by
  refine ⟨?_, ?_, ?_⟩
  · unfold roundGoal
    rw [round_intCast]
    congr 1
    omega
  · unfold roundGoal
    have : (0 : ℤ) ≤ max 0 (round x) := le_max_left 0 _
    exact_mod_cast this
  · refine ⟨(max 0 (round x)).toNat, ?_⟩
    unfold roundGoal
    congr 1
    omega

end MGW
